import Mathlib

/-!
Verification of the self-healing patch loop (wolverine).

The development shallowly embeds the two Python source files:
  * `wolverine/wolverine.py`   — the main module (iterative retry loop);
  * `tests/test_wolverine.py`  — the variant implementation shipped under
    `tests/` (recursive retry loop that also records assistant turns).

Pure data is modelled directly; the mutable line buffer of `apply_changes`
is threaded explicitly; Python exceptions (`KeyError`, `IndexError`,
`json.JSONDecodeError`, transport errors) become `Except`/`Option` results
or explicit outcome constructors.
-/

namespace Wolverine

/-! ## JSON values and a model of `json.loads`

`json_validated_response` calls `json.loads` on the slice of the reply that
starts at the first `[`.  `json.loads` parses exactly one JSON document and
rejects any trailing non-whitespace ("Extra data").  The model below
implements that grammar on `List Char`, restricted to integer numerals and
to the single-character string escapes (no `\uXXXX`, no float literals);
none of the statements proved here depend on inputs outside this fragment.
-/

inductive JsonVal where
  | null : JsonVal
  | bool : Bool → JsonVal
  | num : Int → JsonVal
  | str : String → JsonVal
  | arr : List JsonVal → JsonVal
  | obj : List (String × JsonVal) → JsonVal

/-- JSON whitespace, as accepted by `json.loads`. -/
def jsonWs (c : Char) : Bool :=
  c == ' ' || c == '\t' || c == '\n' || c == '\r'

/-- Drop leading JSON whitespace. -/
def skipWs (cs : List Char) : List Char := cs.dropWhile jsonWs

/-- Single-character string escapes of the JSON grammar; `"`, `\` and `/`
stand for themselves. -/
def escChar (e : Char) : Option Char :=
  if e == 'n' then some '\n'
  else if e == 't' then some '\t'
  else if e == 'r' then some '\r'
  else if e == 'b' then some (Char.ofNat 8)
  else if e == 'f' then some (Char.ofNat 12)
  else if e == '"' || e == '\\' || e == '/' then some e
  else none

/-- Parse the body of a JSON string after the opening quote; returns the
decoded characters and the remainder after the closing quote. -/
def parseStrChars : List Char → Option (List Char × List Char)
  | '"' :: cs => some ([], cs)
  | '\\' :: e :: cs => do
      let d ← escChar e
      let (tail, rem) ← parseStrChars cs
      pure (d :: tail, rem)
  | c :: cs =>
      if c == '\\' then none
      else do
        let (tail, rem) ← parseStrChars cs
        pure (c :: tail, rem)
  | [] => none

/-- Decimal value of a digit run, accumulator style. -/
def digitsVal (acc : Nat) : List Char → Nat
  | [] => acc
  | d :: ds => digitsVal (acc * 10 + (d.toNat - 48)) ds

/-- Parse a nonempty run of decimal digits as a natural number. -/
def parseNatNum (cs : List Char) : Option (Nat × List Char) :=
  match cs.span Char.isDigit with
  | ([], _) => none
  | (ds, rest) => some (digitsVal 0 ds, rest)

/-- Parse an integer numeral (optional leading minus sign). -/
def parseIntNum : List Char → Option (JsonVal × List Char)
  | '-' :: cs => (parseNatNum cs).map (fun p => (.num (-(p.1 : Int)), p.2))
  | cs => (parseNatNum cs).map (fun p => (.num (p.1 : Int), p.2))

/-- The three keyword literals of the grammar. -/
def matchWord : List Char → Option (JsonVal × List Char)
  | 't' :: 'r' :: 'u' :: 'e' :: r => some (.bool true, r)
  | 'f' :: 'a' :: 'l' :: 's' :: 'e' :: r => some (.bool false, r)
  | 'n' :: 'u' :: 'l' :: 'l' :: r => some (.null, r)
  | _ => none

mutual

/-- Parse one JSON value (after skipping leading whitespace), fuel-indexed. -/
def parseVal : Nat → List Char → Option (JsonVal × List Char)
  | 0, _ => none
  | f + 1, cs =>
    match skipWs cs with
    | [] => none
    | c :: rest =>
      if c == '[' then
        match skipWs rest with
        | ']' :: r2 => some (.arr [], r2)
        | _ => do
            let (es, rem) ← parseElems f rest
            pure (.arr es, rem)
      else if c == '{' then
        match skipWs rest with
        | '}' :: r2 => some (.obj [], r2)
        | _ => do
            let (ms, rem) ← parseMembers f rest
            pure (.obj ms, rem)
      else if c == '"' then do
        let (s, rem) ← parseStrChars rest
        pure (.str (String.mk s), rem)
      else if c == '-' || c.isDigit then
        parseIntNum (c :: rest)
      else
        matchWord (c :: rest)

/-- Parse the comma-separated elements of a nonempty array, up to `]`. -/
def parseElems : Nat → List Char → Option (List JsonVal × List Char)
  | 0, _ => none
  | f + 1, cs => do
    let (v, r) ← parseVal f cs
    match skipWs r with
    | ']' :: r2 => pure ([v], r2)
    | ',' :: r2 => do
        let (vs, r3) ← parseElems f r2
        pure (v :: vs, r3)
    | _ => none

/-- Parse one `"key": value` member of an object. -/
def parseMember : Nat → List Char → Option ((String × JsonVal) × List Char)
  | 0, _ => none
  | f + 1, cs =>
    match skipWs cs with
    | '"' :: r => do
        let (k, r1) ← parseStrChars r
        match skipWs r1 with
        | ':' :: r2 => do
            let (v, r3) ← parseVal f r2
            pure ((String.mk k, v), r3)
        | _ => none
    | _ => none

/-- Parse the comma-separated members of a nonempty object, up to the
closing brace. -/
def parseMembers : Nat → List Char → Option (List (String × JsonVal) × List Char)
  | 0, _ => none
  | f + 1, cs => do
    let (kv, r) ← parseMember f cs
    match skipWs r with
    | '}' :: r2 => pure ([kv], r2)
    | ',' :: r2 => do
        let (ms, r3) ← parseMembers f r2
        pure (kv :: ms, r3)
    | _ => none

end

/-- Model of Python `json.loads`: parse exactly one JSON document; trailing
non-whitespace is an error ("Extra data"). -/
def jsonLoads (cs : List Char) : Option JsonVal :=
  match parseVal (2 * cs.length + 4) cs with
  | none => none
  | some (v, rest) => if skipWs rest = [] then some v else none

/-- Model of Python `content.index("[")`: position of the first `[`,
`none` when absent (`ValueError`). -/
def idxOfBracket : List Char → Option Nat
  | [] => none
  | c :: cs => if c = '[' then some 0 else (idxOfBracket cs).map (· + 1)

/-- The parse step of `json_validated_response`:
`json.loads(content[content.index("["):])`, `none` on `ValueError` or
`JSONDecodeError`. -/
def tryParse (content : String) : Option JsonVal :=
  match idxOfBracket content.toList with
  | none => none
  | some i => jsonLoads (content.toList.drop i)

/-! ## The response-validation loop

`json_validated_response` talks to the model collaborator once per loop
iteration.  The collaborator is modelled as a finite stream of outcomes,
consumed in order: `reply c` is a normal chat completion with text `c`,
`failure e` is the chat call raising (network/transport error).  The run
returns the final outcome, the number of chat calls performed, and the
final state of the (mutated) `messages` list.  A run that exhausts the
stream while the Python loop would keep going ends in `outOfReplies`.
-/

structure Message where
  role : String
  content : String
deriving DecidableEq

inductive ChatResult where
  | reply : String → ChatResult
  | failure : String → ChatResult
deriving DecidableEq

inductive VResult where
  | ok : JsonVal → VResult
  | exhausted : VResult
  | transport : String → VResult
  | outOfReplies : VResult

structure RunOut where
  result : VResult
  exchanges : Nat
  messages : List Message

/-- The correction turn appended by `wolverine/wolverine.py`. -/
def retryText : String :=
  "Your response could not be parsed by json.loads. Please restate it as valid pure JSON."

/-- The correction turn appended by `tests/test_wolverine.py`. -/
def retryTextT : String :=
  "Your response could not be parsed by json.loads. Please restate your last message as pure JSON."

/-- `json_validated_response` of `wolverine/wolverine.py`:
`while nb_retry != 0:` call the model; on a parse failure append a user
correction turn and decrement `nb_retry` only when it is positive; a
transport error propagates; falling out of the loop raises
`Exception("No valid JSON response found.")` (`exhausted`).  The model
reply is never recorded in `messages`. -/
def jvrLoop : List ChatResult → Int → List Message → RunOut
  | [], n, ms => if n = 0 then ⟨.exhausted, 0, ms⟩ else ⟨.outOfReplies, 0, ms⟩
  | r :: rest, n, ms =>
    if n = 0 then ⟨.exhausted, 0, ms⟩
    else
      match r with
      | .failure e => ⟨.transport e, 1, ms⟩
      | .reply c =>
        match tryParse c with
        | some v => ⟨.ok v, 1, ms⟩
        | none =>
          let out := jvrLoop rest (if n > 0 then n - 1 else n) (ms ++ [⟨"user", retryText⟩])
          ⟨out.result, out.exchanges + 1, out.messages⟩

/-- `json_validated_response` of `tests/test_wolverine.py`: recursive
formulation; the reply is appended to `messages` as an assistant turn
before parsing; on a parse failure a user correction turn is appended and
`nb_retry` is decremented unconditionally; any non-parse error re-raises;
`nb_retry == 0` raises `Exception("No valid JSON response found after
retries.")`. -/
def jvrLoopT : List ChatResult → Int → List Message → RunOut
  | [], n, ms => if n = 0 then ⟨.exhausted, 0, ms⟩ else ⟨.outOfReplies, 0, ms⟩
  | r :: rest, n, ms =>
    if n = 0 then ⟨.exhausted, 0, ms⟩
    else
      match r with
      | .failure e => ⟨.transport e, 1, ms⟩
      | .reply c =>
        let ms1 := ms ++ [⟨"assistant", c⟩]
        match tryParse c with
        | some v => ⟨.ok v, 1, ms1⟩
        | none =>
          let out := jvrLoopT rest (n - 1) (ms1 ++ [⟨"user", retryTextT⟩])
          ⟨out.result, out.exchanges + 1, out.messages⟩

/-- A chat outcome that is a reply whose text fails the parse step. -/
def badReply : ChatResult → Bool
  | .reply c => (tryParse c).isNone
  | .failure _ => false

/-! ## The patch engine

`apply_changes` receives the parsed batch: a list of JSON objects.  Each
object is projected onto the four keys the code reads; a missing key is
`none` (reading it raises `KeyError`).  The file on disk is only written
after the whole batch has been applied in memory, so a raised exception
leaves the file untouched: the embedding returns `Except.error` for a run
that raises and `Except.ok` with the buffer that gets written back. -/

structure Change where
  operation : Option String := none
  line : Option Int := none
  content : Option String := none
  explanation : Option String := none
deriving DecidableEq

/-- Python list index normalization for `l[i]` / `del l[i]`: a negative
index counts from the end; out of range is an `IndexError`. -/
def pyIndex (len : Nat) (i : Int) : Option Nat :=
  let j := if i < 0 then i + len else i
  if 0 ≤ j ∧ j < len then some j.toNat else none

/-- Python `l[i] = x` on a list of lines. -/
def pySetItem (l : List String) (i : Int) (x : String) : Except String (List String) :=
  match pyIndex l.length i with
  | some j => .ok (l.set j x)
  | none => .error "IndexError: list assignment index out of range"

/-- Python `del l[i]` on a list of lines. -/
def pyDelItem (l : List String) (i : Int) : Except String (List String) :=
  match pyIndex l.length i with
  | some j => .ok (l.eraseIdx j)
  | none => .error "IndexError: list assignment index out of range"

/-- Python `l.insert(i, x)`: the insertion position is clamped into
`[0, len]`, so it never raises. -/
def pyInsert (l : List String) (i : Int) (x : String) : List String :=
  let j := if i < 0 then i + l.length else i
  let j := if j < 0 then 0 else j
  let jn := min j.toNat l.length
  l.take jn ++ x :: l.drop jn

/-- One iteration of the `for change in operation_changes` loop: read
`operation`, `line`, `content` (each read raises `KeyError` when the key
is missing), then dispatch on the operation string; an unknown string
falls through all branches and leaves the buffer unchanged. -/
def applyOne (file_lines : List String) (c : Change) : Except String (List String) := do
  let operation ← match c.operation with
    | some s => pure s
    | none => .error "KeyError: operation"
  let line ← match c.line with
    | some i => pure i
    | none => .error "KeyError: line"
  let content ← match c.content with
    | some s => pure s
    | none => .error "KeyError: content"
  if operation = "Replace" then
    pySetItem file_lines (line - 1) (content ++ "\n")
  else if operation = "Delete" then
    pyDelItem file_lines (line - 1)
  else if operation = "InsertAfter" then
    pure (pyInsert file_lines line (content ++ "\n"))
  else
    pure file_lines

/-- The sort key `lambda x: x["line"]`; total on the changes that reach the
sort because their `line` presence is checked first (a missing key is a
`KeyError` raised inside `list.sort`). -/
def keyLine (c : Change) : Int := c.line.getD 0

/-- Python `operation_changes.sort(key=lambda x: x["line"], reverse=True)`:
a stable descending sort by `line`.  `List.insertionSort` with the relation
"earlier element has the larger-or-equal key" computes exactly the stable
descending arrangement. -/
def sortDescByLine (l : List Change) : List Change :=
  l.insertionSort (fun a b => keyLine b ≤ keyLine a)

/-- The application loop over the sorted batch, threading the buffer;
stops at the first raised exception. -/
def applyAll : List Change → List String → Except String (List String)
  | [], buf => .ok buf
  | c :: cs, buf =>
    match applyOne buf c with
    | .ok buf2 => applyAll cs buf2
    | .error e => .error e

/-- `apply_changes` of both source files (the two copies are identical on
the buffer): filter the objects that carry an `operation` key, sort them
by `line` descending (raising `KeyError` if one of them has no `line`),
then fold the per-operation loop over a copy of the original lines.  The
`explanation` projection only feeds printing and cannot fail, so it does
not appear in the buffer semantics. -/
def apply_changes (original_file_lines : List String) (changes : List Change) :
    Except String (List String) :=
  let operation_changes := changes.filter (fun c => c.operation.isSome)
  if operation_changes.all (fun c => c.line.isSome) then
    applyAll (sortDescByLine operation_changes) original_file_lines
  else
    .error "KeyError: line"

/-! ## Spec-side simultaneous semantics

The spec (§4.2, §8 "line-addressing invariance", §9) describes the intended
meaning of a batch: every operation is interpreted against the *original*
numbering, as if all were applied simultaneously.  The definitions below
follow the functional reading the spec recommends — walk the original
buffer index by index and consult the (at most one, for non-conflicting
batches) pending operation addressed to each line.  They are the
comparison point for the refinement claim, not a translation of the code.
-/

/-- Modelled from the spec: the fate of one original line under an optional
pending operation — `Delete` drops it, `Replace` substitutes the new text,
`InsertAfter` keeps it and emits the inserted line after it. -/
def simLine (s : String) : Option Change → List String
  | none => [s]
  | some c =>
    if c.operation = some "Delete" then []
    else if c.operation = some "Replace" then [c.content.getD "" ++ "\n"]
    else [s, c.content.getD "" ++ "\n"]

/-- The operation of the batch addressed to 1-based line `i`, if any. -/
def lookupLine (ops : List Change) (i : Int) : Option Change :=
  ops.find? (fun c => c.line == some i)

/-- Modelled from the spec: walk the lines, `i` being the 1-based original
line number of the head of the remaining buffer. -/
def simApplyAux (ops : List Change) : Int → List String → List String
  | _, [] => []
  | i, s :: rest => simLine s (lookupLine ops i) ++ simApplyAux ops (i + 1) rest

/-- Modelled from the spec: simultaneous application of a batch against the
original buffer numbering. -/
def simApply (orig : List String) (ops : List Change) : List String :=
  simApplyAux ops 1 orig

/-- A well-formed edit operation for a buffer of `len` lines: one of the
three operation kinds, a `content` value (the code reads the key for every
operation, `Delete` included), and a line number within the original
bounds. -/
def WfOp (len : Nat) (c : Change) : Prop :=
  (c.operation = some "Replace" ∨ c.operation = some "Delete"
    ∨ c.operation = some "InsertAfter")
  ∧ c.content.isSome = true
  ∧ c.line.isSome = true
  ∧ 1 ≤ keyLine c ∧ keyLine c ≤ (len : Int)

instance (len : Nat) (c : Change) : Decidable (WfOp len c) := by
  unfold WfOp; infer_instance

/-- No two operations of the batch address the same line. -/
def NoConflict (ops : List Change) : Prop :=
  ops.Pairwise (fun a b => keyLine a ≠ keyLine b)

instance (ops : List Change) : Decidable (NoConflict ops) := by
  unfold NoConflict; infer_instance

/-! ## Evaluation lemmas for the per-operation step -/

theorem applyOne_replace (buf : List String) (k : Nat) (v : String) (e : Option String)
    (hk : k < buf.length) :
    applyOne buf ⟨some "Replace", some ((k : Int) + 1), some v, e⟩
      = .ok (buf.set k (v ++ "\n")) := by
  have h0 : ¬((k : Int) < 0) := by omega
  have h1 : ((k : Int) + 1 - 1) = (k : Int) := by omega
  have h2 : ¬((k : Int) + 1 < 1) := by omega
  have h3 : (0 : Int) ≤ (k : Int) ∧ (k : Int) < (buf.length : Int) := by omega
  have h4 : ((k : Int)).toNat = k := by omega
  simp [applyOne, pySetItem, pyIndex, bind, Except.bind, pure, Except.pure, h0, h1, h2, h3, h4]

theorem applyOne_delete (buf : List String) (k : Nat) (v : String) (e : Option String)
    (hk : k < buf.length) :
    applyOne buf ⟨some "Delete", some ((k : Int) + 1), some v, e⟩
      = .ok (buf.eraseIdx k) := by
  have h0 : ¬((k : Int) < 0) := by omega
  have h1 : ((k : Int) + 1 - 1) = (k : Int) := by omega
  have h2 : ¬((k : Int) + 1 < 1) := by omega
  have h3 : (0 : Int) ≤ (k : Int) ∧ (k : Int) < (buf.length : Int) := by omega
  have h4 : ((k : Int)).toNat = k := by omega
  simp [applyOne, pyDelItem, pyIndex, bind, Except.bind, pure, Except.pure, h0, h1, h2, h3, h4]

theorem applyOne_insertAfter (buf : List String) (k : Nat) (v : String) (e : Option String)
    (hk : k < buf.length) :
    applyOne buf ⟨some "InsertAfter", some ((k : Int) + 1), some v, e⟩
      = .ok (buf.take (k + 1) ++ (v ++ "\n") :: buf.drop (k + 1)) := by
  have h2 : ¬((k : Int) + 1 < 0) := by omega
  have h4 : ((k : Int) + 1).toNat = k + 1 := by omega
  have h5 : min (k + 1) buf.length = k + 1 := by omega
  simp [applyOne, pyInsert, bind, Except.bind, pure, Except.pure, h2, h4, h5]

/-! ## Decomposition lemmas for the simultaneous semantics -/

theorem simApplyAux_nil_ops (i : Int) (l : List String) : simApplyAux [] i l = l := by
  induction l generalizing i with
  | nil => rfl
  | cons s rest ih => simp [simApplyAux, lookupLine, simLine, ih]

theorem simApply_nil_ops (buf : List String) : simApply buf [] = buf :=
  simApplyAux_nil_ops 1 buf

theorem simApplyAux_append (ops : List Change) (A B : List String) (i : Int) :
    simApplyAux ops i (A ++ B)
      = simApplyAux ops i A ++ simApplyAux ops (i + (A.length : Int)) B := by
  induction A generalizing i with
  | nil => simp [simApplyAux]
  | cons s A ih =>
    have harith : i + 1 + (A.length : Int) = i + ((A.length : Int) + 1) := by omega
    simp [simApplyAux, ih, List.append_assoc, harith]

theorem simApplyAux_noop (ops : List Change) (l : List String) (i : Int)
    (h : ∀ c ∈ ops, ∃ jc : Int, c.line = some jc ∧ jc < i) :
    simApplyAux ops i l = l := by
  induction l generalizing i with
  | nil => rfl
  | cons s rest ih =>
    have hl : lookupLine ops i = none := by
      apply List.find?_eq_none.mpr
      intro c hc
      obtain ⟨jc, hjc, hlt⟩ := h c hc
      have hne : jc ≠ i := by omega
      simp [hjc, hne]
    simp [simApplyAux, hl, simLine]
    exact ih (i + 1) (fun c hc => by obtain ⟨jc, hjc, hlt⟩ := h c hc; exact ⟨jc, hjc, by omega⟩)

theorem simApplyAux_congr (ops1 ops2 : List Change) (l : List String) (i : Int)
    (h : ∀ j : Int, i ≤ j → j < i + (l.length : Int) → lookupLine ops1 j = lookupLine ops2 j) :
    simApplyAux ops1 i l = simApplyAux ops2 i l := by
  induction l generalizing i with
  | nil => rfl
  | cons s rest ih =>
    have h0 : lookupLine ops1 i = lookupLine ops2 i :=
      h i le_rfl (by simp only [List.length_cons]; push_cast; omega)
    simp only [simApplyAux, h0]
    congr 1
    exact ih (i + 1) (fun j hj1 hj2 =>
      h j (by omega) (by simp only [List.length_cons] at hj2 ⊢; push_cast at hj2 ⊢; omega))

theorem lookupLine_cons_self (op : Change) (rest : List Change) (i : Int)
    (h : op.line = some i) : lookupLine (op :: rest) i = some op := by
  apply List.find?_cons_of_pos
  simp [h]

theorem lookupLine_cons_ne (op : Change) (rest : List Change) (i : Int)
    (h : op.line ≠ some i) : lookupLine (op :: rest) i = lookupLine rest i := by
  apply List.find?_cons_of_neg
  simp [h]

theorem sim_shift (P T : List String) (rest : List Change) (k : Nat) (hP : P.length = k)
    (hrest : ∀ c ∈ rest, ∃ jc : Int, c.line = some jc ∧ jc < (k : Int) + 1) :
    simApply (P ++ T) rest = simApplyAux rest 1 P ++ T := by
  unfold simApply
  rw [simApplyAux_append, hP]
  congr 1
  exact simApplyAux_noop rest T (1 + (k : Int))
    (fun c hc => by obtain ⟨jc, hjc, hlt⟩ := hrest c hc; exact ⟨jc, hjc, by omega⟩)

theorem sim_step (buf : List String) (op : Change) (rest : List Change) (k : Nat)
    (hk : k < buf.length) (hline : op.line = some ((k : Int) + 1))
    (hrest : ∀ c ∈ rest, ∃ jc : Int, c.line = some jc ∧ 1 ≤ jc ∧ jc < (k : Int) + 1) :
    simApply buf (op :: rest)
      = simApplyAux rest 1 (buf.take k) ++ (simLine buf[k] (some op) ++ buf.drop (k + 1)) := by
  conv_lhs => rw [show buf = buf.take k ++ buf.drop k from (List.take_append_drop k buf).symm,
    List.drop_eq_getElem_cons hk]
  unfold simApply
  rw [simApplyAux_append]
  have hPlen : (buf.take k).length = k := by simp; omega
  rw [hPlen]
  congr 1
  · -- indices 1..k do not see op
    apply simApplyAux_congr
    intro j hj1 hj2
    rw [hPlen] at hj2
    apply lookupLine_cons_ne
    rw [hline]
    intro hcon
    have hji : ((k : Int) + 1) = j := by injection hcon
    omega
  · -- index k+1 is op, the tail beyond it is untouched
    have hone : (1 : Int) + (k : Int) = (k : Int) + 1 := by omega
    rw [hone]
    simp only [simApplyAux]
    rw [lookupLine_cons_self op rest _ hline]
    congr 1
    apply simApplyAux_noop (op :: rest) _ ((k : Int) + 1 + 1)
    intro c hc
    rcases List.mem_cons.mp hc with h | h
    · refine ⟨(k : Int) + 1, ?_, by omega⟩
      rw [h]; exact hline
    · obtain ⟨jc, hjc, _, hlt⟩ := hrest c h
      exact ⟨jc, hjc, by omega⟩


instance : IsTotal Change (fun a b => keyLine b ≤ keyLine a) :=
  ⟨fun a b => le_total (keyLine b) (keyLine a)⟩

instance : IsTrans Change (fun a b => keyLine b ≤ keyLine a) :=
  ⟨fun _ _ _ h1 h2 => le_trans h2 h1⟩

theorem sortDescByLine_perm (l : List Change) : (sortDescByLine l).Perm l :=
  List.perm_insertionSort _ l

theorem sortDescByLine_sorted (l : List Change) :
    (sortDescByLine l).Sorted (fun a b => keyLine b ≤ keyLine a) :=
  List.sorted_insertionSort _ l

theorem sorted_desc_unique (l1 : List Change) :
    ∀ (l2 : List Change), l1.Perm l2 →
      l1.Sorted (fun a b => keyLine b ≤ keyLine a) →
      l2.Sorted (fun a b => keyLine b ≤ keyLine a) →
      l1.Pairwise (fun a b => keyLine a ≠ keyLine b) →
      l1 = l2 := by
  induction l1 with
  | nil =>
    intro l2 hp _ _ _
    exact List.Perm.nil_eq hp
  | cons a t1 ih =>
    intro l2 hp hs1 hs2 hd
    cases l2 with
    | nil => exact absurd (List.Perm.eq_nil hp) (by simp)
    | cons b t2 =>
      have hab : a = b := by
        have hane : a ∈ b :: t2 := hp.mem_iff.mp (List.mem_cons_self a t1)
        rcases List.mem_cons.mp hane with h | h
        · exact h
        · have hba : b ∈ a :: t1 := hp.mem_iff.mpr (List.mem_cons_self b t2)
          rcases List.mem_cons.mp hba with h2 | h2
          · exact h2.symm
          · have hk1 : keyLine a ≤ keyLine b := (List.sorted_cons.mp hs2).1 a h
            have hk2 : keyLine b ≤ keyLine a := (List.sorted_cons.mp hs1).1 b h2
            have hne : keyLine a ≠ keyLine b := (List.pairwise_cons.mp hd).1 b h2
            omega
      subst hab
      rw [ih t2 (List.Perm.cons_inv hp) (List.sorted_cons.mp hs1).2
        (List.sorted_cons.mp hs2).2 (List.pairwise_cons.mp hd).2]

theorem lookupLine_perm (l1 l2 : List Change) (hp : l1.Perm l2)
    (hd : l1.Pairwise (fun a b => keyLine a ≠ keyLine b)) (i : Int) :
    lookupLine l1 i = lookupLine l2 i := by
  have hsym : Symmetric (fun a b : Change => keyLine a ≠ keyLine b) :=
    fun a b h => h.symm
  unfold lookupLine
  cases h1 : List.find? (fun c => c.line == some i) l1 with
  | none =>
    have hall := List.find?_eq_none.mp h1
    exact (List.find?_eq_none.mpr (fun c hc => hall c (hp.mem_iff.mpr hc))).symm
  | some c =>
    have hcp := List.find?_some h1
    have hcm : c ∈ l1 := List.mem_of_find?_eq_some h1
    cases h2 : List.find? (fun c => c.line == some i) l2 with
    | none =>
      have hall := List.find?_eq_none.mp h2
      exact absurd hcp (hall c (hp.mem_iff.mp hcm))
    | some c2 =>
      have hcp2 := List.find?_some h2
      have hcm2 : c2 ∈ l1 := hp.mem_iff.mpr (List.mem_of_find?_eq_some h2)
      by_cases hcc : c = c2
      · rw [hcc]
      · have hne := (hd.forall hsym) hcm hcm2 hcc
        have e1 : c.line = some i := by simpa using hcp
        have e2 : c2.line = some i := by simpa using hcp2
        have : keyLine c = keyLine c2 := by simp [keyLine, e1, e2]
        exact absurd this hne

theorem simApply_perm (orig : List String) (l1 l2 : List Change) (hp : l1.Perm l2)
    (hd : l1.Pairwise (fun a b => keyLine a ≠ keyLine b)) :
    simApply orig l1 = simApply orig l2 :=
  simApplyAux_congr l1 l2 orig 1 (fun j _ _ => lookupLine_perm l1 l2 hp hd j)

/-- The descending single pass of `apply_changes` computes exactly the
simultaneous semantics, for a batch that is well-formed, sorted strictly
descending by line. -/
theorem applyAll_eq_simApply (ops : List Change) :
    ∀ (buf : List String),
      (∀ c ∈ ops, WfOp buf.length c) →
      ops.Pairwise (fun a b => keyLine b < keyLine a) →
      applyAll ops buf = .ok (simApply buf ops) := by
  induction ops with
  | nil =>
    intro buf _ _
    simp [applyAll, simApply_nil_ops]
  | cons op rest ih =>
    intro buf hwf hpw
    obtain ⟨hopk, hct, hlp, h1L, hLl⟩ := hwf op (List.mem_cons_self op rest)
    obtain ⟨v, hv⟩ := Option.isSome_iff_exists.mp hct
    obtain ⟨L, hL⟩ := Option.isSome_iff_exists.mp hlp
    have hkey : keyLine op = L := by simp [keyLine, hL]
    rw [hkey] at h1L hLl
    obtain ⟨k, rfl⟩ : ∃ k : Nat, L = (k : Int) + 1 := ⟨(L - 1).toNat, by omega⟩
    have hk : k < buf.length := by omega
    have hpwhead : ∀ c ∈ rest, keyLine c < (k : Int) + 1 := by
      intro c hc
      have := (List.pairwise_cons.mp hpw).1 c hc
      omega
    have hpwtail := (List.pairwise_cons.mp hpw).2
    have hrestline : ∀ c ∈ rest, ∃ jc : Int, c.line = some jc ∧ 1 ≤ jc ∧ jc < (k : Int) + 1 := by
      intro c hc
      obtain ⟨_, _, hlp2, hone, _⟩ := hwf c (List.mem_cons_of_mem _ hc)
      obtain ⟨jc, hjc⟩ := Option.isSome_iff_exists.mp hlp2
      have hkc : keyLine c = jc := by simp [keyLine, hjc]
      refine ⟨jc, hjc, by omega, ?_⟩
      have := hpwhead c hc
      omega
    have hrestline2 : ∀ c ∈ rest, ∃ jc : Int, c.line = some jc ∧ jc < (k : Int) + 1 :=
      fun c hc => by obtain ⟨jc, h1, _, h3⟩ := hrestline c hc; exact ⟨jc, h1, h3⟩
    obtain ⟨o, l0, ct, ex⟩ := op
    dsimp only at hL hv hkey
    subst hL
    subst hv
    dsimp only at hopk
    have hstep := sim_step buf ⟨o, some ((k : Int) + 1), some v, ex⟩ rest k hk rfl hrestline
    rcases hopk with ho | ho | ho <;> subst ho
    · -- Replace
      have hbuf2 : buf.set k (v ++ "\n")
          = buf.take k ++ (v ++ "\n") :: buf.drop (k + 1) :=
        List.set_eq_take_cons_drop _ hk
      simp only [applyAll, applyOne_replace buf k v ex hk]
      rw [ih (buf.set k (v ++ "\n"))
        (by
          intro c hc
          have := hwf c (List.mem_cons_of_mem _ hc)
          simpa using this)
        hpwtail]
      rw [hstep, hbuf2, sim_shift _ _ rest k (by simp; omega) hrestline2]
      simp [simLine]
    · -- Delete
      have hbuf2 : buf.eraseIdx k = buf.take k ++ buf.drop (k + 1) :=
        List.eraseIdx_eq_take_drop_succ buf k
      simp only [applyAll, applyOne_delete buf k v ex hk]
      rw [ih (buf.eraseIdx k)
        (by
          intro c hc
          obtain ⟨ha, hb, hcc, hd, he⟩ := hwf c (List.mem_cons_of_mem _ hc)
          refine ⟨ha, hb, hcc, hd, ?_⟩
          have hlen : (buf.eraseIdx k).length = buf.length - 1 := by
            rw [List.length_eraseIdx]
            simp [hk]
          have hck := hpwhead c hc
          rw [hlen]
          omega)
        hpwtail]
      rw [hstep, hbuf2, sim_shift _ _ rest k (by simp; omega) hrestline2]
      simp [simLine]
    · -- InsertAfter
      have htake : buf.take (k + 1) = buf.take k ++ [buf[k]] := by
        rw [List.take_succ]
        simp [List.getElem?_eq_getElem hk]
      have hbuf2 : buf.take (k + 1) ++ (v ++ "\n") :: buf.drop (k + 1)
          = buf.take k ++ (buf[k] :: (v ++ "\n") :: buf.drop (k + 1)) := by
        rw [htake, List.append_assoc]
        rfl
      simp only [applyAll, applyOne_insertAfter buf k v ex hk]
      rw [ih (buf.take (k + 1) ++ (v ++ "\n") :: buf.drop (k + 1))
        (by
          intro c hc
          obtain ⟨ha, hb, hcc, hd, he⟩ := hwf c (List.mem_cons_of_mem _ hc)
          refine ⟨ha, hb, hcc, hd, ?_⟩
          have hlen : (buf.take (k + 1) ++ (v ++ "\n") :: buf.drop (k + 1)).length
              = buf.length + 1 := by
            simp
            omega
          rw [hlen]
          omega)
        hpwtail]
      rw [hstep, hbuf2, sim_shift _ _ rest k (by simp; omega) hrestline2]
      simp [simLine]

/-! ## Retry-budget lemmas for the validator loop -/

theorem jvrLoop_zero (rs : List ChatResult) (ms : List Message) :
    jvrLoop rs 0 ms = ⟨.exhausted, 0, ms⟩ := by
  cases rs <;> simp [jvrLoop]

theorem jvrLoopT_zero (rs : List ChatResult) (ms : List Message) :
    jvrLoopT rs 0 ms = ⟨.exhausted, 0, ms⟩ := by
  cases rs <;> simp [jvrLoopT]

theorem jvrLoop_allBad (rs : List ChatResult) :
    ∀ (n : Int) (ms : List Message), 0 < n → n ≤ (rs.length : Int) →
      (∀ r ∈ rs, badReply r = true) →
      (jvrLoop rs n ms).result = .exhausted ∧ (jvrLoop rs n ms).exchanges = n.toNat := by
  induction rs with
  | nil =>
    intro n ms h1 h2 _
    simp at h2
    omega
  | cons r rest ih =>
    intro n ms h1 h2 hbad
    have hr := hbad r (List.mem_cons_self r rest)
    cases r with
    | failure e => simp [badReply] at hr
    | reply c =>
      have hn : ¬(n = 0) := by omega
      have hparse : tryParse c = none := by
        simpa [badReply, Option.isNone_iff_eq_none] using hr
      have hgt : n > 0 := h1
      simp only [jvrLoop, hn, if_false, hparse, if_pos hgt]
      by_cases hone : n = 1
      · subst hone
        simp [jvrLoop_zero]
      · have h1r : 0 < n - 1 := by omega
        have h2r : n - 1 ≤ (rest.length : Int) := by
          simp only [List.length_cons] at h2
          push_cast at h2 ⊢
          omega
        obtain ⟨ha, hb⟩ := ih (n - 1) (ms ++ [⟨"user", retryText⟩]) h1r h2r
          (fun x hx => hbad x (List.mem_cons_of_mem _ hx))
        refine ⟨ha, ?_⟩
        rw [hb]
        omega

theorem jvrLoopT_allBad (rs : List ChatResult) :
    ∀ (n : Int) (ms : List Message), 0 < n → n ≤ (rs.length : Int) →
      (∀ r ∈ rs, badReply r = true) →
      (jvrLoopT rs n ms).result = .exhausted ∧ (jvrLoopT rs n ms).exchanges = n.toNat := by
  induction rs with
  | nil =>
    intro n ms h1 h2 _
    simp at h2
    omega
  | cons r rest ih =>
    intro n ms h1 h2 hbad
    have hr := hbad r (List.mem_cons_self r rest)
    cases r with
    | failure e => simp [badReply] at hr
    | reply c =>
      have hn : ¬(n = 0) := by omega
      have hparse : tryParse c = none := by
        simpa [badReply, Option.isNone_iff_eq_none] using hr
      simp only [jvrLoopT, hn, if_false, hparse]
      by_cases hone : n = 1
      · subst hone
        simp [jvrLoopT_zero]
      · have h1r : 0 < n - 1 := by omega
        have h2r : n - 1 ≤ (rest.length : Int) := by
          simp only [List.length_cons] at h2
          push_cast at h2 ⊢
          omega
        obtain ⟨ha, hb⟩ := ih (n - 1) (ms ++ [⟨"assistant", c⟩] ++ [⟨"user", retryTextT⟩]) h1r h2r
          (fun x hx => hbad x (List.mem_cons_of_mem _ hx))
        refine ⟨ha, ?_⟩
        rw [hb]
        omega

theorem jvrLoop_neg_not_exhausted (rs : List ChatResult) :
    ∀ (n : Int) (ms : List Message), n < 0 →
      (jvrLoop rs n ms).result ≠ .exhausted := by
  induction rs with
  | nil =>
    intro n ms hneg
    have hn : ¬(n = 0) := by omega
    simp [jvrLoop, hn]
  | cons r rest ih =>
    intro n ms hneg
    have hn : ¬(n = 0) := by omega
    have hng : ¬(n > 0) := by omega
    cases r with
    | failure e => simp [jvrLoop, hn]
    | reply c =>
      cases hp : tryParse c with
      | some v => simp [jvrLoop, hn, hp]
      | none =>
        simp only [jvrLoop, hn, if_false, hp, if_neg hng]
        exact ih n (ms ++ [⟨"user", retryText⟩]) hneg

theorem jvrLoopT_neg_not_exhausted (rs : List ChatResult) :
    ∀ (n : Int) (ms : List Message), n < 0 →
      (jvrLoopT rs n ms).result ≠ .exhausted := by
  induction rs with
  | nil =>
    intro n ms hneg
    have hn : ¬(n = 0) := by omega
    simp [jvrLoopT, hn]
  | cons r rest ih =>
    intro n ms hneg
    have hn : ¬(n = 0) := by omega
    cases r with
    | failure e => simp [jvrLoopT, hn]
    | reply c =>
      cases hp : tryParse c with
      | some v => simp [jvrLoopT, hn, hp]
      | none =>
        simp only [jvrLoopT, hn, if_false, hp]
        exact ih (n - 1) _ (by omega)


/-- For a well-formed batch the filter keeps everything and the `line`
presence check passes, so `apply_changes` is the descending pass over the
sorted batch. -/
theorem apply_changes_eq_of_wf (orig : List String) (b : List Change)
    (hwf : ∀ c ∈ b, WfOp orig.length c) :
    apply_changes orig b = applyAll (sortDescByLine b) orig := by
  unfold apply_changes
  have hfilter : b.filter (fun c => c.operation.isSome) = b :=
    List.filter_eq_self.mpr (fun c hc => by
      obtain ⟨ho, _, _, _, _⟩ := hwf c hc
      rcases ho with h | h | h <;> simp [h])
  rw [hfilter]
  have hall : b.all (fun c => c.line.isSome) = true :=
    List.all_eq_true.mpr (fun c hc => (hwf c hc).2.2.1)
  simp [hall]

/-- A weakly descending chain with pairwise distinct keys is strictly
descending. -/
theorem pairwise_strict_of_sorted_ne : ∀ (l : List Change),
    l.Sorted (fun a b => keyLine b ≤ keyLine a) →
    l.Pairwise (fun a b => keyLine a ≠ keyLine b) →
    l.Pairwise (fun a b => keyLine b < keyLine a)
  | [], _, _ => List.Pairwise.nil
  | a :: t, hs, hd => by
    rw [List.pairwise_cons]
    refine ⟨fun b hb => ?_, ?_⟩
    · have h1 := (List.sorted_cons.mp hs).1 b hb
      have h2 := (List.pairwise_cons.mp hd).1 b hb
      omega
    · exact pairwise_strict_of_sorted_ne t (List.sorted_cons.mp hs).2
        (List.pairwise_cons.mp hd).2

/-! ## Generic evaluation helpers for single-operation batches -/

theorem applyAll_singleton (orig : List String) (c : Change) :
    applyAll [c] orig = applyOne orig c := by
  cases h : applyOne orig c <;> simp [applyAll, h]

theorem apply_changes_singleton (orig : List String) (c : Change)
    (hop : c.operation.isSome = true) (hln : c.line.isSome = true) :
    apply_changes orig [c] = applyOne orig c := by
  unfold apply_changes
  simp [hop, hln, sortDescByLine, List.insertionSort, List.orderedInsert, applyAll_singleton]

theorem applyOne_replace_any (orig : List String) (ln : Int) (v : String) (e : Option String) :
    applyOne orig ⟨some "Replace", some ln, some v, e⟩
      = pySetItem orig (ln - 1) (v ++ "\n") := by
  simp [applyOne, bind, Except.bind, pure, Except.pure]

theorem applyOne_delete_any (orig : List String) (ln : Int) (v : String) (e : Option String) :
    applyOne orig ⟨some "Delete", some ln, some v, e⟩
      = pyDelItem orig (ln - 1) := by
  simp [applyOne, bind, Except.bind, pure, Except.pure]

theorem applyOne_insertAfter_any (orig : List String) (ln : Int) (v : String) (e : Option String) :
    applyOne orig ⟨some "InsertAfter", some ln, some v, e⟩
      = .ok (pyInsert orig ln (v ++ "\n")) := by
  simp [applyOne, bind, Except.bind, pure, Except.pure]

theorem applyOne_no_content (orig : List String) (ln : Int) (s : String) (e : Option String) :
    applyOne orig ⟨some s, some ln, none, e⟩ = .error "KeyError: content" := by
  simp [applyOne, bind, Except.bind, pure, Except.pure]

/-! ## Locating the JSON slice inside a prose-wrapped reply -/

theorem idxOfBracket_append (A B : List Char) (hA : '[' ∉ A) (hB : B.head? = some '[') :
    idxOfBracket (A ++ B) = some A.length := by
  induction A with
  | nil =>
    cases B with
    | nil => simp at hB
    | cons b bs =>
      simp only [List.head?] at hB
      have hb : b = '[' := by injection hB
      simp [idxOfBracket, hb]
  | cons a as ih =>
    have ha : ¬(a = '[') := fun h => hA (h ▸ List.mem_cons_self a as)
    have ih2 := ih (fun h => hA (List.mem_cons_of_mem _ h))
    simp [idxOfBracket, ha, ih2]

/-- When the reply is leading prose without `[` followed by text starting at
`[`, the slice handed to `json.loads` is exactly that trailing text. -/
theorem tryParse_prefixed (p doc : String)
    (hp : '[' ∉ p.toList) (hd : doc.toList.head? = some '[') :
    tryParse (p ++ doc) = jsonLoads doc.toList := by
  unfold tryParse
  have hdata : (p ++ doc).toList = p.toList ++ doc.toList := by
    simp [String.toList]
  rw [hdata, idxOfBracket_append p.toList doc.toList hp hd]
  simp [List.drop_left]

/-! # The claims -/

/-- Claim C1, counterexample: a `Replace` at line 0 is not rejected as a
`MalformedEdit` — Python negative indexing silently wraps `line - 1 = -1`
to the last line, and the batch succeeds while changing the buffer. -/
theorem replace_at_line_zero_wraps :
    apply_changes ["a\n", "b\n"] [⟨some "Replace", some 0, some "z", none⟩]
      = .ok ["a\n", "z\n"] := rfl

/-- Claim C1, amended: `apply_changes` performs no bounds validation of its
own.  A `Replace` or `Delete` whose line exceeds the buffer length raises
`IndexError` (so the batch produces no written buffer), but a `Replace` at
line 0 wraps to the last line via negative indexing and succeeds, and an
`InsertAfter` beyond the buffer length silently appends at the end. -/
theorem out_of_range_edit_behavior (orig : List String) (v : String) (ln : Int)
    (hgt : (orig.length : Int) < ln) (hpos : 0 < orig.length) :
    apply_changes orig [⟨some "Replace", some ln, some v, none⟩]
        = .error "IndexError: list assignment index out of range"
    ∧ apply_changes orig [⟨some "Delete", some ln, some v, none⟩]
        = .error "IndexError: list assignment index out of range"
    ∧ apply_changes orig [⟨some "Replace", some 0, some v, none⟩]
        = .ok (orig.set (orig.length - 1) (v ++ "\n"))
    ∧ apply_changes orig [⟨some "InsertAfter", some ln, some v, none⟩]
        = .ok (orig ++ [v ++ "\n"]) := by
  have hidx : pyIndex orig.length (ln - 1) = none := by
    have h1 : ¬(ln - 1 < 0) := by omega
    simp [pyIndex, h1]
    omega
  have hidx0 : pyIndex orig.length (-1) = some (orig.length - 1) := by
    have h1 : (-1 : Int) < 0 := by omega
    simp [pyIndex, h1]
    omega
  refine ⟨?_, ?_, ?_, ?_⟩
  · rw [apply_changes_singleton orig ⟨some "Replace", some ln, some v, none⟩ rfl rfl,
      applyOne_replace_any]
    simp [pySetItem, hidx]
  · rw [apply_changes_singleton orig ⟨some "Delete", some ln, some v, none⟩ rfl rfl,
      applyOne_delete_any]
    simp [pyDelItem, hidx]
  · rw [apply_changes_singleton orig ⟨some "Replace", some 0, some v, none⟩ rfl rfl,
      applyOne_replace_any]
    simp [pySetItem, hidx0]
  · rw [apply_changes_singleton orig ⟨some "InsertAfter", some ln, some v, none⟩ rfl rfl,
      applyOne_insertAfter_any]
    have h1 : ¬(ln < 0) := by omega
    have h2 : min ln.toNat orig.length = orig.length := by omega
    simp [pyInsert, h1, h2]

/-- Claim C1 witness: the amended behavior at the two-line buffer and
line 3. -/
theorem out_of_range_edit_behavior_witness :
    apply_changes ["a\n", "b\n"] [⟨some "Replace", some 3, some "z", none⟩]
        = .error "IndexError: list assignment index out of range"
    ∧ apply_changes ["a\n", "b\n"] [⟨some "Delete", some 3, some "z", none⟩]
        = .error "IndexError: list assignment index out of range"
    ∧ apply_changes ["a\n", "b\n"] [⟨some "Replace", some 0, some "z", none⟩]
        = .ok (["a\n", "b\n"].set (["a\n", "b\n"].length - 1) ("z" ++ "\n"))
    ∧ apply_changes ["a\n", "b\n"] [⟨some "InsertAfter", some 3, some "z", none⟩]
        = .ok (["a\n", "b\n"] ++ ["z" ++ "\n"]) :=
  out_of_range_edit_behavior ["a\n", "b\n"] "z" 3 (by decide) (by decide)

/-- Claim C2: with retry budget 0 the loop raises before any model
exchange; with budget `N > 0` and every reply unparseable it performs
exactly `N` exchanges (within the claimed bound of `N + 1`) and then
raises; with budget `-1` it never raises due to retry exhaustion.  Both
the main module loop and the tests-variant recursion satisfy this. -/
theorem retry_budget_bounds (N : Int) (rs rs2 : List ChatResult) (ms : List Message)
    (hN : 0 < N) (hlen : N ≤ (rs.length : Int)) (hbad : ∀ r ∈ rs, badReply r = true) :
    (jvrLoop rs2 0 ms = ⟨.exhausted, 0, ms⟩ ∧ jvrLoopT rs2 0 ms = ⟨.exhausted, 0, ms⟩)
    ∧ ((jvrLoop rs N ms).result = .exhausted ∧ (jvrLoop rs N ms).exchanges = N.toNat
       ∧ (jvrLoopT rs N ms).result = .exhausted ∧ (jvrLoopT rs N ms).exchanges = N.toNat)
    ∧ ((jvrLoop rs2 (-1) ms).result ≠ .exhausted
       ∧ (jvrLoopT rs2 (-1) ms).result ≠ .exhausted) := by
  refine ⟨⟨jvrLoop_zero rs2 ms, jvrLoopT_zero rs2 ms⟩, ?_, ?_⟩
  · obtain ⟨h1, h2⟩ := jvrLoop_allBad rs N ms hN hlen hbad
    obtain ⟨h3, h4⟩ := jvrLoopT_allBad rs N ms hN hlen hbad
    exact ⟨h1, h2, h3, h4⟩
  · exact ⟨jvrLoop_neg_not_exhausted rs2 (-1) ms (by omega),
      jvrLoopT_neg_not_exhausted rs2 (-1) ms (by omega)⟩

/-- Claim C2 witness: budget 2 against two unparseable replies. -/
theorem retry_budget_bounds_witness :
    ((jvrLoop [ChatResult.failure "boom"] 0 [] = ⟨.exhausted, 0, []⟩
        ∧ jvrLoopT [ChatResult.failure "boom"] 0 [] = ⟨.exhausted, 0, []⟩)
      ∧ ((jvrLoop [ChatResult.reply "junk", ChatResult.reply "junk"] 2 []).result = .exhausted
        ∧ (jvrLoop [ChatResult.reply "junk", ChatResult.reply "junk"] 2 []).exchanges
            = (2 : Int).toNat
        ∧ (jvrLoopT [ChatResult.reply "junk", ChatResult.reply "junk"] 2 []).result = .exhausted
        ∧ (jvrLoopT [ChatResult.reply "junk", ChatResult.reply "junk"] 2 []).exchanges
            = (2 : Int).toNat)
      ∧ ((jvrLoop [ChatResult.failure "boom"] (-1) []).result ≠ .exhausted
        ∧ (jvrLoopT [ChatResult.failure "boom"] (-1) []).result ≠ .exhausted)) :=
  retry_budget_bounds 2 [ChatResult.reply "junk", ChatResult.reply "junk"]
    [ChatResult.failure "boom"] [] (by decide) (by decide) (by decide)

/-- Claim C3: an error of the chat call itself (transport failure)
propagates immediately: the run ends with that error after the single
raising call, consuming no retry, re-invoking nothing (the rest of the
stream is arbitrary and unread), and leaving the conversation unchanged.
Holds for both implementations. -/
theorem transport_failure_fatal_not_retried (n : Int) (ms : List Message) (e : String)
    (rest : List ChatResult) (hn : n ≠ 0) :
    jvrLoop (.failure e :: rest) n ms = ⟨.transport e, 1, ms⟩
    ∧ jvrLoopT (.failure e :: rest) n ms = ⟨.transport e, 1, ms⟩ := by
  constructor <;> simp [jvrLoop, jvrLoopT, hn]

/-- Claim C3 witness: a transport failure followed by a parseable reply
that is never requested. -/
theorem transport_failure_fatal_not_retried_witness :
    jvrLoop [ChatResult.failure "boom", ChatResult.reply "[1]"] 5 [⟨"system", "s"⟩]
        = ⟨.transport "boom", 1, [⟨"system", "s"⟩]⟩
    ∧ jvrLoopT [ChatResult.failure "boom", ChatResult.reply "[1]"] 5 [⟨"system", "s"⟩]
        = ⟨.transport "boom", 1, [⟨"system", "s"⟩]⟩ :=
  transport_failure_fatal_not_retried 5 [⟨"system", "s"⟩] "boom"
    [ChatResult.reply "[1]"] (by decide)

/-- Claim C4, counterexample: a reply holding a balanced JSON array
followed by trailing commentary is not accepted — `json.loads` rejects
the extra data, the parse step yields nothing, and a budget-1 run ends
exhausted instead of returning the array `[1]`. -/
theorem trailing_commentary_not_tolerated :
    tryParse "Sure: [1] hope that helps!" = none
    ∧ (jvrLoop [ChatResult.reply "Sure: [1] hope that helps!"] 1 []).result = .exhausted :=
  ⟨rfl, rfl⟩

/-- Claim C4, amended: leading prose before the first `[` is tolerated
(the slice from the first `[` is parsed), but the slice must parse as
exactly one JSON document, so only trailing whitespace — not trailing
commentary — may follow the array.  Both implementations return the
parsed array in that case. -/
theorem leading_prose_tolerated (p doc : String) (vs : List JsonVal) (n : Int)
    (ms : List Message) (rest : List ChatResult)
    (hp : '[' ∉ p.toList) (hd : doc.toList.head? = some '[')
    (hparse : jsonLoads doc.toList = some (.arr vs)) (hn : n ≠ 0) :
    (jvrLoop (.reply (p ++ doc) :: rest) n ms).result = .ok (.arr vs)
    ∧ (jvrLoopT (.reply (p ++ doc) :: rest) n ms).result = .ok (.arr vs) := by
  have ht : tryParse (p ++ doc) = some (.arr vs) := by
    rw [tryParse_prefixed p doc hp hd, hparse]
  constructor <;> simp [jvrLoop, jvrLoopT, hn, ht]

/-- Claim C4 witness: the spec scenario reply with prose before the
array. -/
theorem leading_prose_tolerated_witness :
    (jvrLoop [ChatResult.reply ("Sure! Here you go:\n"
        ++ "[\x7b\"explanation\":\"fix\"\x7d]")] (-1) []).result
      = .ok (.arr [.obj [("explanation", .str "fix")]])
    ∧ (jvrLoopT [ChatResult.reply ("Sure! Here you go:\n"
        ++ "[\x7b\"explanation\":\"fix\"\x7d]")] (-1) []).result
      = .ok (.arr [.obj [("explanation", .str "fix")]]) :=
  leading_prose_tolerated "Sure! Here you go:\n" "[\x7b\"explanation\":\"fix\"\x7d]"
    [.obj [("explanation", .str "fix")]] (-1) [] []
    (by decide) rfl rfl (by decide)

/-- Claim C5, counterexample: in the main module the model reply is never
appended to the conversation — after an exchange with an unparseable
reply the conversation holds only the user correction turn, and no
assistant turn carrying the reply exists. -/
theorem assistant_reply_not_recorded :
    (jvrLoop [ChatResult.reply "no json here"] (-1) []).messages = [⟨"user", retryText⟩]
    ∧ Message.mk "assistant" "no json here"
        ∉ (jvrLoop [ChatResult.reply "no json here"] (-1) []).messages :=
  ⟨rfl, by decide⟩

/-- Claim C5, amended: per exchange the main module appends only the user
correction turn on a parse failure and nothing on success, so retries see
prior correction requests but never the malformed replies; the tests
variant appends the reply as an assistant turn before parsing (plus the
correction turn on failure), as the spec describes. -/
theorem conversation_update_per_exchange (n : Int) (ms : List Message)
    (c1 c2 : String) (v : JsonVal)
    (hn : n ≠ 0) (h1 : tryParse c1 = none) (h2 : tryParse c2 = some v) :
    (jvrLoop [.reply c1] n ms).messages = ms ++ [⟨"user", retryText⟩]
    ∧ (jvrLoopT [.reply c1] n ms).messages
        = ms ++ [⟨"assistant", c1⟩, ⟨"user", retryTextT⟩]
    ∧ (jvrLoop [.reply c2] n ms).messages = ms
    ∧ (jvrLoopT [.reply c2] n ms).messages = ms ++ [⟨"assistant", c2⟩] := by
  refine ⟨?_, ?_, ?_, ?_⟩
  · simp [jvrLoop, hn, h1, apply_ite RunOut.messages]
  · simp [jvrLoopT, hn, h1, apply_ite RunOut.messages]
  · simp [jvrLoop, hn, h2]
  · simp [jvrLoopT, hn, h2]

/-- Claim C5 witness: one failing and one succeeding exchange over a
one-message conversation. -/
theorem conversation_update_per_exchange_witness :
    (jvrLoop [ChatResult.reply "junk"] 5 [⟨"system", "s"⟩]).messages
        = [⟨"system", "s"⟩] ++ [⟨"user", retryText⟩]
    ∧ (jvrLoopT [ChatResult.reply "junk"] 5 [⟨"system", "s"⟩]).messages
        = [⟨"system", "s"⟩] ++ [⟨"assistant", "junk"⟩, ⟨"user", retryTextT⟩]
    ∧ (jvrLoop [ChatResult.reply "[]"] 5 [⟨"system", "s"⟩]).messages = [⟨"system", "s"⟩]
    ∧ (jvrLoopT [ChatResult.reply "[]"] 5 [⟨"system", "s"⟩]).messages
        = [⟨"system", "s"⟩] ++ [⟨"assistant", "[]"⟩] :=
  conversation_update_per_exchange 5 [⟨"system", "s"⟩] "junk" "[]" (.arr [])
    (by decide) rfl rfl

/-- Claim C6, counterexample: the spec batch taken literally has a
`Delete` without a `content` field; `apply_changes` reads `content` for
every operation, so the run raises `KeyError` and does not produce the
expected buffer. -/
theorem concrete_scenario_raises_keyerror :
    apply_changes ["a\n", "b\n", "c\n"]
      [⟨some "Delete", some 2, none, none⟩,
       ⟨some "InsertAfter", some 1, some "x", none⟩,
       ⟨some "Replace", some 3, some "z", none⟩]
      = .error "KeyError: content"
    ∧ apply_changes ["a\n", "b\n", "c\n"]
      [⟨some "Delete", some 2, none, none⟩,
       ⟨some "InsertAfter", some 1, some "x", none⟩,
       ⟨some "Replace", some 3, some "z", none⟩]
      ≠ .ok ["a\n", "x\n", "z\n"] := ⟨rfl, fun h => nomatch h⟩

/-- Claim C6, amended: once the `Delete` carries a `content` field (any
value; it is ignored), the batch produces exactly the expected buffer. -/
theorem concrete_scenario_with_content_field (v : String) :
    apply_changes ["a\n", "b\n", "c\n"]
      [⟨some "Delete", some 2, some v, none⟩,
       ⟨some "InsertAfter", some 1, some "x", none⟩,
       ⟨some "Replace", some 3, some "z", none⟩]
      = .ok ["a\n", "x\n", "z\n"] := by
  simp [apply_changes, sortDescByLine, List.insertionSort, List.orderedInsert, keyLine,
    applyAll, applyOne, pySetItem, pyDelItem, pyInsert, pyIndex,
    bind, Except.bind, pure, Except.pure]

/-- Claim C7: for a batch of well-formed, non-conflicting operations
(pairwise distinct lines, all within the original bounds), the result of
`apply_changes` is independent of the order in which the batch is given,
and equals the simultaneous application of all operations against the
original numbering. -/
theorem apply_changes_order_independent (orig : List String) (b1 b2 : List Change)
    (hperm : b1.Perm b2)
    (hwf : ∀ c ∈ b1, WfOp orig.length c)
    (hnc : NoConflict b1) :
    apply_changes orig b1 = apply_changes orig b2
      ∧ apply_changes orig b1 = .ok (simApply orig b1) := by
  have hwf2 : ∀ c ∈ b2, WfOp orig.length c := fun c hc => hwf c (hperm.mem_iff.mpr hc)
  have hsortperm : (sortDescByLine b1).Perm (sortDescByLine b2) :=
    (sortDescByLine_perm b1).trans (hperm.trans (sortDescByLine_perm b2).symm)
  have hd1 : (sortDescByLine b1).Pairwise (fun a b => keyLine a ≠ keyLine b) :=
    (List.Perm.pairwise_iff (fun h => Ne.symm h) (sortDescByLine_perm b1)).mpr hnc
  have heq : sortDescByLine b1 = sortDescByLine b2 :=
    sorted_desc_unique _ _ hsortperm (sortDescByLine_sorted b1) (sortDescByLine_sorted b2) hd1
  have e1 : apply_changes orig b1 = applyAll (sortDescByLine b1) orig :=
    apply_changes_eq_of_wf _ _ hwf
  have e2 : apply_changes orig b2 = applyAll (sortDescByLine b2) orig :=
    apply_changes_eq_of_wf _ _ hwf2
  constructor
  · rw [e1, e2, heq]
  · rw [e1]
    have hwfs : ∀ c ∈ sortDescByLine b1, WfOp orig.length c :=
      fun c hc => hwf c ((sortDescByLine_perm b1).mem_iff.mp hc)
    have hstrict := pairwise_strict_of_sorted_ne _ (sortDescByLine_sorted b1) hd1
    rw [applyAll_eq_simApply _ orig hwfs hstrict]
    rw [simApply_perm orig (sortDescByLine b1) b1 (sortDescByLine_perm b1) hd1]

/-- Claim C7 witness: the spec scenario batch against one of its
permutations. -/
theorem apply_changes_order_independent_witness :
    apply_changes ["a\n", "b\n", "c\n"]
        [⟨some "Delete", some 2, some "", none⟩,
         ⟨some "InsertAfter", some 1, some "x", none⟩,
         ⟨some "Replace", some 3, some "z", none⟩]
      = apply_changes ["a\n", "b\n", "c\n"]
        [⟨some "Replace", some 3, some "z", none⟩,
         ⟨some "Delete", some 2, some "", none⟩,
         ⟨some "InsertAfter", some 1, some "x", none⟩]
    ∧ apply_changes ["a\n", "b\n", "c\n"]
        [⟨some "Delete", some 2, some "", none⟩,
         ⟨some "InsertAfter", some 1, some "x", none⟩,
         ⟨some "Replace", some 3, some "z", none⟩]
      = .ok (simApply ["a\n", "b\n", "c\n"]
        [⟨some "Delete", some 2, some "", none⟩,
         ⟨some "InsertAfter", some 1, some "x", none⟩,
         ⟨some "Replace", some 3, some "z", none⟩]) :=
  apply_changes_order_independent ["a\n", "b\n", "c\n"] _ _
    (by decide) (by decide) (by decide)

/-- Claim C8: a batch whose objects all lack the `operation` key is
entirely filtered out before application, and the buffer comes back
unchanged. -/
theorem commentary_only_batch_unchanged (orig : List String) (changes : List Change)
    (h : ∀ c ∈ changes, c.operation = none) :
    apply_changes orig changes = .ok orig := by
  unfold apply_changes
  have hfilter : changes.filter (fun c => c.operation.isSome) = [] := by
    rw [List.filter_eq_nil_iff]
    intro c hc
    simp [h c hc]
  rw [hfilter]
  simp [sortDescByLine, List.insertionSort, applyAll]

/-- Claim C8 witness: the explanation-only object of the spec scenario. -/
theorem commentary_only_batch_unchanged_witness :
    apply_changes ["a\n"] [⟨none, none, none, some "fix"⟩] = .ok ["a\n"] :=
  commentary_only_batch_unchanged ["a\n"] [⟨none, none, none, some "fix"⟩] (by decide)

/-- Claim C9, counterexample: a `Delete` without a `content` field does
not succeed — the loop reads `content` before dispatching on the
operation kind, so the run raises `KeyError` instead of removing the
line. -/
theorem delete_without_content_raises :
    apply_changes ["a\n", "b\n"] [⟨some "Delete", some 1, none, none⟩]
      = .error "KeyError: content"
    ∧ apply_changes ["a\n", "b\n"] [⟨some "Delete", some 1, none, none⟩]
      ≠ .ok ["b\n"] := ⟨rfl, fun h => nomatch h⟩

/-- Claim C9, amended: the `content` value of a `Delete` is ignored (any
two values give identical results), but the field must be present — a
`Delete` without it raises `KeyError`. -/
theorem delete_content_ignored_but_required (orig : List String) (ln : Int)
    (v w : String) (e : Option String) :
    apply_changes orig [⟨some "Delete", some ln, some v, e⟩]
      = apply_changes orig [⟨some "Delete", some ln, some w, e⟩]
    ∧ apply_changes orig [⟨some "Delete", some ln, none, e⟩]
      = .error "KeyError: content" := by
  constructor
  · rw [apply_changes_singleton orig ⟨some "Delete", some ln, some v, e⟩ rfl rfl,
      apply_changes_singleton orig ⟨some "Delete", some ln, some w, e⟩ rfl rfl,
      applyOne_delete_any, applyOne_delete_any]
  · rw [apply_changes_singleton orig ⟨some "Delete", some ln, none, e⟩ rfl rfl,
      applyOne_no_content]

/-- Claim C10: an in-range `Replace` stores exactly `content ++ "\n"` as
the addressed buffer element, and an in-range `InsertAfter` inserts
exactly `content ++ "\n"` as one new element after the addressed line; in
particular content ending in a newline yields an element ending in two
newlines, and embedded newlines stay within the single element. -/
theorem replace_insert_append_newline (orig : List String) (v : String) (k : Nat)
    (hk : k < orig.length) :
    apply_changes orig [⟨some "Replace", some ((k : Int) + 1), some v, none⟩]
      = .ok (orig.set k (v ++ "\n"))
    ∧ apply_changes orig [⟨some "InsertAfter", some ((k : Int) + 1), some v, none⟩]
      = .ok (orig.take (k + 1) ++ (v ++ "\n") :: orig.drop (k + 1)) := by
  constructor
  · rw [apply_changes_singleton orig ⟨some "Replace", some ((k : Int) + 1), some v, none⟩ rfl rfl,
      applyOne_replace orig k v none hk]
  · rw [apply_changes_singleton orig
      ⟨some "InsertAfter", some ((k : Int) + 1), some v, none⟩ rfl rfl,
      applyOne_insertAfter orig k v none hk]

/-- Claim C10 witness: newline-terminated content at line 2 of a two-line
buffer yields a single element ending in two newlines. -/
theorem replace_insert_append_newline_witness :
    apply_changes ["a\n", "b\n"]
        [⟨some "Replace", some (((1 : Nat) : Int) + 1), some "x\n", none⟩]
      = .ok (["a\n", "b\n"].set 1 ("x\n" ++ "\n"))
    ∧ apply_changes ["a\n", "b\n"]
        [⟨some "InsertAfter", some (((1 : Nat) : Int) + 1), some "x\n", none⟩]
      = .ok (["a\n", "b\n"].take (1 + 1) ++ ("x\n" ++ "\n") :: ["a\n", "b\n"].drop (1 + 1)) :=
  replace_insert_append_newline ["a\n", "b\n"] "x\n" 1 (by decide)

end Wolverine
